import Mathlib

/-!
Verification of the data-symmetry repository (`ds` command-line tool).

The development shallowly embeds the Go source of the two core commands:

* `twincheck` (src/internal/twincheck/twincheck.go and the earlier version
  of the same package): divergence reporting between two directory trees
  with three tiers — `off` (path+size), `smart` (hash only missing-by-path
  files, narrowed by size), `strict` (global content comparison).
* `dupekill` (dupekill.go): duplicate elimination of cleanup trees against
  a protected reference tree, with a dry-run preview, interactive
  confirmation, a delete/move executor, and empty-directory pruning.

Modelling conventions:
* A scanned regular file is a `FileInfo` holding its relative path (the
  key of the Go `FileMap`), its absolute path, its content (a `String`
  standing for the byte stream) and a `readable` flag.  The scanned size
  is the content length, and the content digest of a file is `hashFn`
  applied to its content, where `hashFn` is an explicit parameter
  standing for SHA-256.  An unreadable file models a file whose open or
  read fails: hashing drops it (`computeHash`/`hashFile` return an error).
* A scanned tree is a `List FileInfo`.  The Go `FileMap` is keyed by
  relative path, so relative paths within one tree are unique; theorems
  that depend on this carry a `pathsNodup` hypothesis.
* Filesystem mutation is modelled by the list of operations the executor
  performs (`FileOp`); an empty list is an unchanged filesystem.
  Interactive input is a `List String` of lines; a `bufio.Scanner` read
  consumes the head, and the empty list is end of input.
-/

structure FileInfo where
  rel : String
  abs : String
  content : String
  readable : Bool
deriving DecidableEq, Repr

/-- Size of a scanned file, as recorded by the scanner (`info.Size()`):
the length of its byte content. -/
def FileInfo.size (e : FileInfo) : Nat := e.content.length

/-- Relative paths of a tree are unique (invariant of the Go `FileMap`
and of one scan root). -/
abbrev pathsNodup (t : List FileInfo) : Prop := (t.map (fun e => e.rel)).Nodup

/-- Digest collision freedom over the files of the two trees involved in
one comparison: no two distinct contents among them share a digest. -/
def InjOnContents (hashFn : String → String) (A B : List FileInfo) : Prop :=
  ∀ e1, e1 ∈ A ++ B → ∀ e2, e2 ∈ A ++ B →
    hashFn e1.content = hashFn e2.content → e1.content = e2.content

namespace Twincheck

/-- Membership of a relative path in a scanned tree (`_, ok := files[path]`). -/
def hasPath (t : List FileInfo) (p : String) : Bool :=
  t.any (fun e => e.rel == p)

/-- Worker-pool hashing (`hashFiles` in twincheck.go, lines 70–125):
returns the association of relative path to digest for every file of the
batch that can be read; a file whose open or read fails is dropped
(the worker only sends a result when `err == nil`). -/
def hashFiles (hashFn : String → String) (batch : List FileInfo) :
    List (String × String) :=
  batch.foldr
    (fun e acc => if e.readable then (e.rel, hashFn e.content) :: acc else acc)
    []

/-- Files of tree A missing by path from tree B
(`missingInB` in `compareSmart`). -/
def missingInB (A B : List FileInfo) : List FileInfo :=
  A.filter (fun e => !hasPath B e.rel)

/-- Missing-by-path files whose size occurs somewhere in the other tree:
the A-side hashing batch of `compareSmart` (`toHashA`).  The others
short-circuit into `trulyMissingInB` without being hashed. -/
def toHashA (A B : List FileInfo) : List FileInfo :=
  (missingInB A B).filter (fun e => B.any (fun q => q.size == e.size))

/-- Same-size candidates in tree B for the missing files: the B-side
hashing batch of `compareSmart` (`toHashB`); `sizeMapB[size]` holds every
B file of that size, at any path. -/
def toHashB (A B : List FileInfo) : List FileInfo :=
  B.filter (fun q => (missingInB A B).any (fun m => m.size == q.size))

/-- Digest set of the B-side candidate batch (`hashSetB` built from the
values of `hashFiles(driveB, toHashB)`). -/
def hashSetB (hashFn : String → String) (A B : List FileInfo) : List String :=
  (hashFiles hashFn (toHashB A B)).map (fun r => r.2)

/-- Final smart classification of the A-into-B direction
(`trulyMissingInB` of `compareSmart`, lines 211–247): a missing file with
no same-size candidate is divergent outright; a batched file stays
divergent unless its own digest was computed (`hashesA[p]` present) and
occurs in the candidate digest set.  The B-into-A direction of the source
is this function with the two trees swapped. -/
def trulyMissingInB (hashFn : String → String) (A B : List FileInfo) :
    List FileInfo :=
  (missingInB A B).filter (fun e =>
    if B.any (fun q => q.size == e.size) then
      match (hashFiles hashFn (toHashA A B)).lookup e.rel with
      | some h => !((hashSetB hashFn A B).contains h)
      | none => true
    else true)

/-- Strict-tier A-side candidates (`candidatesA` of `compareStrict`):
files whose size occurs in both trees; for a file of A this means its
size occurs in B. -/
def candidatesA (A B : List FileInfo) : List FileInfo :=
  A.filter (fun e => B.any (fun q => q.size == e.size))

/-- Strict-tier B-side candidates (`candidatesB` of `compareStrict`). -/
def candidatesB (A B : List FileInfo) : List FileInfo :=
  B.filter (fun q => A.any (fun e => e.size == q.size))

/-- Digest map of the A-side strict candidates (`hashesA`). -/
def hashesA (hashFn : String → String) (A B : List FileInfo) :
    List (String × String) :=
  hashFiles hashFn (candidatesA A B)

/-- Digest set of the B-side strict candidates (`hashSetB` of
`compareStrict`). -/
def strictHashSetB (hashFn : String → String) (A B : List FileInfo) :
    List String :=
  (hashFiles hashFn (candidatesB A B)).map (fun r => r.2)

/-- Strict classification of the A side (`onlyA` of `compareStrict`,
lines 366–381): a file whose size is absent from B is divergent without
hashing; otherwise it is divergent unless its digest was computed and
occurs among B's candidate digests.  `onlyB` of the source is this
function with the trees swapped. -/
def onlyA (hashFn : String → String) (A B : List FileInfo) : List FileInfo :=
  A.filter (fun e =>
    if B.any (fun q => q.size == e.size) then
      match (hashesA hashFn A B).lookup e.rel with
      | some h => !((strictHashSetB hashFn A B).contains h)
      | none => true
    else true)

/-- Size-mismatch set of the non-hashing tier (`diffSize` of
`compareDrives` in the earlier twincheck version): paths present in both
trees with differing recorded sizes. -/
def diffSize (A B : List FileInfo) : List String :=
  (A.filter (fun e =>
    match B.find? (fun q => q.rel == e.rel) with
    | some q => !(q.size == e.size)
    | none => false)).map (fun e => e.rel)

end Twincheck

section TwincheckLemmas

open Twincheck

theorem hashFiles_nil (hashFn : String → String) :
    hashFiles hashFn [] = [] := rfl

theorem hashFiles_cons (hashFn : String → String) (b : FileInfo)
    (rest : List FileInfo) :
    hashFiles hashFn (b :: rest) =
      if b.readable then (b.rel, hashFn b.content) :: hashFiles hashFn rest
      else hashFiles hashFn rest := rfl

theorem hashFiles_lookup_of_not_mem (hashFn : String → String)
    (batch : List FileInfo) (p : String)
    (h : ∀ q ∈ batch, q.rel ≠ p) :
    (hashFiles hashFn batch).lookup p = none := by
  induction batch with
  | nil => rfl
  | cons b rest ih =>
    have hb : b.rel ≠ p := h b (List.mem_cons_self b rest)
    have hrest : ∀ q ∈ rest, q.rel ≠ p := fun q hq => h q (List.mem_cons_of_mem b hq)
    rw [hashFiles_cons]
    by_cases hr : b.readable = true
    · rw [if_pos hr]
      have hpb : (p == b.rel) = false := by
        simp only [beq_eq_false_iff_ne]
        exact fun hpb => hb hpb.symm
      simp only [List.lookup, hpb]
      exact ih hrest
    · rw [if_neg hr]
      exact ih hrest

theorem hashFiles_lookup (hashFn : String → String)
    (batch : List FileInfo) (e : FileInfo)
    (hn : (batch.map (fun q => q.rel)).Nodup) (he : e ∈ batch) :
    (hashFiles hashFn batch).lookup e.rel =
      if e.readable then some (hashFn e.content) else none := by
  induction batch with
  | nil => cases he
  | cons b rest ih =>
    simp only [List.map_cons, List.nodup_cons] at hn
    rw [hashFiles_cons]
    rcases List.mem_cons.mp he with heb | her
    · subst heb
      by_cases hr : e.readable = true
      · rw [if_pos hr, if_pos hr]
        simp [List.lookup]
      · rw [if_neg hr, if_neg hr]
        apply hashFiles_lookup_of_not_mem
        intro q hq hqe
        exact hn.1 (hqe ▸ List.mem_map_of_mem (fun x => x.rel) hq)
    · have hbe : b.rel ≠ e.rel := by
        intro hbeq
        exact hn.1 (hbeq ▸ List.mem_map_of_mem (fun x => x.rel) her)
      by_cases hr : b.readable = true
      · rw [if_pos hr]
        have hpb : (e.rel == b.rel) = false := by
          simp only [beq_eq_false_iff_ne]
          exact fun hh => hbe hh.symm
        simp only [List.lookup, hpb]
        exact ih hn.2 her
      · rw [if_neg hr]
        exact ih hn.2 her

theorem mem_hashFiles_values (hashFn : String → String)
    (l : List FileInfo) (d : String) :
    d ∈ (hashFiles hashFn l).map (fun r => r.2) ↔
      ∃ q, q ∈ l ∧ q.readable = true ∧ hashFn q.content = d := by
  induction l with
  | nil => simp [hashFiles]
  | cons b rest ih =>
    rw [hashFiles_cons]
    by_cases hr : b.readable = true
    · rw [if_pos hr]
      simp only [List.map_cons]
      rw [List.mem_cons]
      constructor
      · rintro (hd | hd)
        · exact ⟨b, List.mem_cons_self b rest, hr, hd.symm⟩
        · obtain ⟨q, hq, hqr, hqd⟩ := ih.mp hd
          exact ⟨q, List.mem_cons_of_mem b hq, hqr, hqd⟩
      · rintro ⟨q, hq, hqr, hqd⟩
        rcases List.mem_cons.mp hq with hqb | hqrest
        · subst hqb; exact Or.inl hqd.symm
        · exact Or.inr (ih.mpr ⟨q, hqrest, hqr, hqd⟩)
    · rw [if_neg hr]
      rw [ih]
      constructor
      · rintro ⟨q, hq, hqr, hqd⟩
        exact ⟨q, List.mem_cons_of_mem b hq, hqr, hqd⟩
      · rintro ⟨q, hq, hqr, hqd⟩
        rcases List.mem_cons.mp hq with hqb | hqrest
        · subst hqb; exact absurd hqr hr
        · exact ⟨q, hqrest, hqr, hqd⟩

theorem pathsNodup_filter (t : List FileInfo) (p : FileInfo → Bool)
    (h : pathsNodup t) : pathsNodup (t.filter p) :=
  List.Nodup.sublist (List.Sublist.map _ (List.filter_sublist t)) h

theorem contains_eq_false_iff (l : List String) (a : String) :
    (l.contains a = false) ↔ a ∉ l := by
  rw [Bool.eq_false_iff]
  exact not_congr List.elem_iff

theorem mem_missingInB (A B : List FileInfo) (e : FileInfo) :
    e ∈ missingInB A B ↔ e ∈ A ∧ hasPath B e.rel = false := by
  unfold missingInB
  rw [List.mem_filter]
  simp only [Bool.not_eq_true']

/-- Characterization of the smart classification: a file of A is reported
truly missing in B iff it is missing by path and either no B file shares
its size, or its digest was not computed or does not occur among the
candidate digests. -/
theorem trulyMissingInB_mem (hashFn : String → String) (A B : List FileInfo)
    (e : FileInfo) (hA : pathsNodup A) :
    e ∈ trulyMissingInB hashFn A B ↔
      e ∈ A ∧ hasPath B e.rel = false ∧
        (B.any (fun q => q.size == e.size) = false ∨
          ¬(e.readable = true ∧ hashFn e.content ∈ hashSetB hashFn A B)) := by
  unfold trulyMissingInB
  rw [List.mem_filter, mem_missingInB]
  constructor
  · rintro ⟨⟨heA, heB⟩, hcond⟩
    refine ⟨heA, heB, ?_⟩
    by_cases hB : B.any (fun q => q.size == e.size) = true
    · right
      rw [if_pos hB] at hcond
      have heHash : e ∈ toHashA A B :=
        List.mem_filter.mpr ⟨(mem_missingInB A B e).mpr ⟨heA, heB⟩, hB⟩
      have hnodup : ((toHashA A B).map (fun q => q.rel)).Nodup :=
        pathsNodup_filter _ _ (pathsNodup_filter _ _ hA)
      rw [hashFiles_lookup hashFn _ e hnodup heHash] at hcond
      rintro ⟨hre, hmem⟩
      rw [if_pos hre] at hcond
      rw [Bool.not_eq_true'] at hcond
      exact (contains_eq_false_iff _ _).mp hcond hmem
    · exact Or.inl (Bool.not_eq_true _ ▸ Bool.eq_false_iff.mpr hB)
  · rintro ⟨heA, heB, hdisj⟩
    refine ⟨⟨heA, heB⟩, ?_⟩
    by_cases hB : B.any (fun q => q.size == e.size) = true
    · rw [if_pos hB]
      have heHash : e ∈ toHashA A B :=
        List.mem_filter.mpr ⟨(mem_missingInB A B e).mpr ⟨heA, heB⟩, hB⟩
      have hnodup : ((toHashA A B).map (fun q => q.rel)).Nodup :=
        pathsNodup_filter _ _ (pathsNodup_filter _ _ hA)
      rw [hashFiles_lookup hashFn _ e hnodup heHash]
      rcases hdisj with hfalse | hnot
      · rw [hB] at hfalse; cases hfalse
      · by_cases hre : e.readable = true
        · rw [if_pos hre]
          have : hashFn e.content ∉ hashSetB hashFn A B := fun hmem => hnot ⟨hre, hmem⟩
          rw [Bool.not_eq_true']
          exact (contains_eq_false_iff _ _).mpr this
        · rw [if_neg hre]
    · rw [if_neg hB]

/-- Characterization of the strict classification for the A side. -/
theorem onlyA_mem (hashFn : String → String) (A B : List FileInfo)
    (e : FileInfo) (hA : pathsNodup A) :
    e ∈ onlyA hashFn A B ↔
      e ∈ A ∧
        (B.any (fun q => q.size == e.size) = false ∨
          ¬(e.readable = true ∧
            hashFn e.content ∈ strictHashSetB hashFn A B)) := by
  unfold onlyA
  rw [List.mem_filter]
  constructor
  · rintro ⟨heA, hcond⟩
    refine ⟨heA, ?_⟩
    by_cases hB : B.any (fun q => q.size == e.size) = true
    · right
      rw [if_pos hB] at hcond
      have heC : e ∈ candidatesA A B := List.mem_filter.mpr ⟨heA, hB⟩
      have hnodup : ((candidatesA A B).map (fun q => q.rel)).Nodup :=
        pathsNodup_filter _ _ hA
      unfold hashesA at hcond
      rw [hashFiles_lookup hashFn _ e hnodup heC] at hcond
      rintro ⟨hre, hmem⟩
      rw [if_pos hre] at hcond
      rw [Bool.not_eq_true'] at hcond
      exact (contains_eq_false_iff _ _).mp hcond hmem
    · exact Or.inl (Bool.not_eq_true _ ▸ Bool.eq_false_iff.mpr hB)
  · rintro ⟨heA, hdisj⟩
    refine ⟨heA, ?_⟩
    by_cases hB : B.any (fun q => q.size == e.size) = true
    · rw [if_pos hB]
      have heC : e ∈ candidatesA A B := List.mem_filter.mpr ⟨heA, hB⟩
      have hnodup : ((candidatesA A B).map (fun q => q.rel)).Nodup :=
        pathsNodup_filter _ _ hA
      unfold hashesA
      rw [hashFiles_lookup hashFn _ e hnodup heC]
      rcases hdisj with hfalse | hnot
      · rw [hB] at hfalse; cases hfalse
      · by_cases hre : e.readable = true
        · rw [if_pos hre]
          have : hashFn e.content ∉ strictHashSetB hashFn A B :=
            fun hmem => hnot ⟨hre, hmem⟩
          rw [Bool.not_eq_true']
          exact (contains_eq_false_iff _ _).mpr this
        · rw [if_neg hre]
    · rw [if_neg hB]

/-- Under collision-free digests, membership of a missing file's digest
in the smart candidate digest set means exactly that some readable B file
holds the same content. -/
theorem mem_hashSetB_iff (hashFn : String → String) (A B : List FileInfo)
    (e : FileInfo) (hInj : InjOnContents hashFn A B)
    (heA : e ∈ A) (heB : hasPath B e.rel = false) :
    hashFn e.content ∈ hashSetB hashFn A B ↔
      ∃ q, q ∈ B ∧ q.readable = true ∧ q.content = e.content := by
  unfold hashSetB
  rw [mem_hashFiles_values]
  constructor
  · rintro ⟨q, hq, hqr, hqd⟩
    have hqB : q ∈ B := List.mem_of_mem_filter hq
    have := hInj q (List.mem_append_right A hqB) e (List.mem_append_left B heA) hqd
    exact ⟨q, hqB, hqr, this⟩
  · rintro ⟨q, hqB, hqr, hqc⟩
    refine ⟨q, ?_, hqr, by rw [hqc]⟩
    apply List.mem_filter.mpr
    refine ⟨hqB, ?_⟩
    apply List.any_eq_true.mpr
    refine ⟨e, (mem_missingInB A B e).mpr ⟨heA, heB⟩, ?_⟩
    have : e.size = q.size := by
      unfold FileInfo.size
      rw [hqc]
    rw [this]
    exact beq_self_eq_true _

/-- Under collision-free digests, membership of a file's digest in the
strict B-side digest set means exactly that some readable B file holds
the same content. -/
theorem mem_strictHashSetB_iff (hashFn : String → String)
    (A B : List FileInfo) (e : FileInfo) (hInj : InjOnContents hashFn A B)
    (heA : e ∈ A) :
    hashFn e.content ∈ strictHashSetB hashFn A B ↔
      ∃ q, q ∈ B ∧ q.readable = true ∧ q.content = e.content := by
  unfold strictHashSetB
  rw [mem_hashFiles_values]
  constructor
  · rintro ⟨q, hq, hqr, hqd⟩
    have hqB : q ∈ B := List.mem_of_mem_filter hq
    have := hInj q (List.mem_append_right A hqB) e (List.mem_append_left B heA) hqd
    exact ⟨q, hqB, hqr, this⟩
  · rintro ⟨q, hqB, hqr, hqc⟩
    refine ⟨q, ?_, hqr, by rw [hqc]⟩
    apply List.mem_filter.mpr
    refine ⟨hqB, ?_⟩
    apply List.any_eq_true.mpr
    refine ⟨e, heA, ?_⟩
    have : e.size = q.size := by
      unfold FileInfo.size
      rw [hqc]
    rw [this]
    exact beq_self_eq_true _

/-- Equivalence, under collision-free digests, of the smart and strict
digest tests for a file of A that is missing by path from B. -/
theorem smart_strict_cond_iff (hashFn : String → String)
    (A B : List FileInfo) (e : FileInfo) (hInj : InjOnContents hashFn A B)
    (heA : e ∈ A) (heB : hasPath B e.rel = false) :
    (B.any (fun q => q.size == e.size) = false ∨
        ¬(e.readable = true ∧ hashFn e.content ∈ hashSetB hashFn A B)) ↔
      (B.any (fun q => q.size == e.size) = false ∨
        ¬(e.readable = true ∧
          hashFn e.content ∈ strictHashSetB hashFn A B)) := by
  rw [mem_hashSetB_iff hashFn A B e hInj heA heB,
    mem_strictHashSetB_iff hashFn A B e hInj heA]

end TwincheckLemmas

/-- Sample pair of trees: the only file of tree A is missing by path from
tree B, but tree B holds the same content at another path. -/
def tcA : List FileInfo := [⟨"x", "/a/x", "aaaaa", true⟩]

/-- Companion tree of `tcA`; see there. -/
def tcB : List FileInfo := [⟨"y", "/b/y", "aaaaa", true⟩]

/-- C4: in Tier 1 (smart) divergence, a file missing by path from the
other tree is classified divergent without entering the hashing batch
when the other tree has no record of its size; otherwise it enters the
A-side batch, every same-size record of the other tree enters the B-side
candidate batch, and the file is classified non-divergent exactly when
its digest was computed and equals the digest of some candidate of the
batch (an unreadable file has no digest and stays divergent). -/
theorem c4_smart_missing_classification
    (hashFn : String → String) (A B : List FileInfo) (e : FileInfo)
    (hA : pathsNodup A) (heA : e ∈ A)
    (heB : Twincheck.hasPath B e.rel = false) :
    (B.any (fun q => q.size == e.size) = false →
       e ∈ Twincheck.trulyMissingInB hashFn A B ∧
       e ∉ Twincheck.toHashA A B)
    ∧ (B.any (fun q => q.size == e.size) = true →
       e ∈ Twincheck.toHashA A B
       ∧ (∀ q, q ∈ B → q.size = e.size → q ∈ Twincheck.toHashB A B)
       ∧ (e ∉ Twincheck.trulyMissingInB hashFn A B ↔
            e.readable = true ∧
            hashFn e.content ∈ Twincheck.hashSetB hashFn A B)) := by
  constructor
  · intro hB
    constructor
    · exact (trulyMissingInB_mem hashFn A B e hA).mpr ⟨heA, heB, Or.inl hB⟩
    · intro hmem
      have := (List.mem_filter.mp hmem).2
      rw [hB] at this
      cases this
  · intro hB
    refine ⟨?_, ?_, ?_⟩
    · exact List.mem_filter.mpr ⟨(mem_missingInB A B e).mpr ⟨heA, heB⟩, hB⟩
    · intro q hqB hqs
      apply List.mem_filter.mpr
      refine ⟨hqB, List.any_eq_true.mpr ⟨e, (mem_missingInB A B e).mpr ⟨heA, heB⟩, ?_⟩⟩
      rw [hqs]
      exact beq_self_eq_true _
    · rw [trulyMissingInB_mem hashFn A B e hA]
      constructor
      · intro hnot
        by_contra hcon
        exact hnot ⟨heA, heB, Or.inr hcon⟩
      · rintro ⟨hre, hmem⟩ ⟨_, _, hdisj⟩
        rcases hdisj with hfalse | hnot
        · rw [hB] at hfalse; cases hfalse
        · exact hnot ⟨hre, hmem⟩

/-- Witness for C4 at a concrete input: `tcA`'s file is missing by path
from `tcB`, a same-size candidate exists, so it enters the hashing batch
and (same content, so matching digest) is classified non-divergent. -/
theorem c4_witness :
    (⟨"x", "/a/x", "aaaaa", true⟩ : FileInfo) ∈ Twincheck.toHashA tcA tcB ∧
    (⟨"x", "/a/x", "aaaaa", true⟩ : FileInfo) ∉
      Twincheck.trulyMissingInB id tcA tcB := by
  have h := (c4_smart_missing_classification id tcA tcB
      ⟨"x", "/a/x", "aaaaa", true⟩ (by decide) (by decide) (by decide)).2
      (by decide)
  exact ⟨h.1, h.2.2.mpr (by decide)⟩

/-- C5 counterexample: two trees holding the same path with different
contents (and different sizes), with a collision-free digest function
(the identity on these contents).  Tier 1 (smart) reports nothing
divergent-in-B — the path is not missing by path — while Tier 2 (strict)
reports the path divergent, so the two sets are not identical. -/
theorem c5_counterexample :
    InjOnContents id [⟨"x", "/a/x", "aaaaa", true⟩]
        [⟨"x", "/b/x", "bb", true⟩]
    ∧ (Twincheck.trulyMissingInB id [⟨"x", "/a/x", "aaaaa", true⟩]
        [⟨"x", "/b/x", "bb", true⟩]).map (fun e => e.rel) = []
    ∧ (Twincheck.onlyA id [⟨"x", "/a/x", "aaaaa", true⟩]
        [⟨"x", "/b/x", "bb", true⟩]).map (fun e => e.rel) = ["x"] := by
  refine ⟨?_, ?_, ?_⟩
  · intro e1 h1 e2 h2 h
    fin_cases h1 <;> fin_cases h2 <;> simp_all
  · decide
  · decide

/-- C5 (amended): under collision-free digests, the smart divergent-in-B
path set equals the strict divergent-in-B path set restricted to paths
missing by path from B; Tier 2 may additionally report paths present in
both trees whose content differs, which Tier 1 never examines. -/
theorem c5_smart_strict_agree_on_missing
    (hashFn : String → String) (A B : List FileInfo)
    (hInj : InjOnContents hashFn A B) (hA : pathsNodup A) (p : String) :
    p ∈ (Twincheck.trulyMissingInB hashFn A B).map (fun e => e.rel) ↔
      (p ∈ (Twincheck.onlyA hashFn A B).map (fun e => e.rel) ∧
        Twincheck.hasPath B p = false) := by
  simp only [List.mem_map]
  constructor
  · rintro ⟨e, heTM, hep⟩
    obtain ⟨heA, heB, hdisj⟩ := (trulyMissingInB_mem hashFn A B e hA).mp heTM
    refine ⟨⟨e, ?_, hep⟩, hep ▸ heB⟩
    exact (onlyA_mem hashFn A B e hA).mpr
      ⟨heA, (smart_strict_cond_iff hashFn A B e hInj heA heB).mp hdisj⟩
  · rintro ⟨⟨e, heOA, hep⟩, hpB⟩
    obtain ⟨heA, hdisj⟩ := (onlyA_mem hashFn A B e hA).mp heOA
    have heB : Twincheck.hasPath B e.rel = false := hep ▸ hpB
    refine ⟨e, ?_, hep⟩
    exact (trulyMissingInB_mem hashFn A B e hA).mpr
      ⟨heA, heB,
        (smart_strict_cond_iff hashFn A B e hInj heA heB).mpr hdisj⟩

/-- Witness for C5 at a concrete input: with `tcA`/`tcB` (same content at
different paths) the equivalence holds at path `x`. -/
theorem c5_witness :
    "x" ∈ (Twincheck.trulyMissingInB id tcA tcB).map (fun e => e.rel) ↔
      ("x" ∈ (Twincheck.onlyA id tcA tcB).map (fun e => e.rel) ∧
        Twincheck.hasPath tcB "x" = false) :=
  c5_smart_strict_agree_on_missing id tcA tcB
    (fun _ _ _ _ h => h) (by decide) "x"

/-- Two trees holding the same pair of contents at swapped paths: every
shared path has a size mismatch, yet each content is present in the other
tree, so the strict tier reports nothing divergent. -/
def swapA : List FileInfo := [⟨"x", "/a/x", "aa", true⟩, ⟨"y", "/a/y", "b", true⟩]

/-- Companion tree of `swapA`; see there. -/
def swapB : List FileInfo := [⟨"x", "/b/x", "b", true⟩, ⟨"y", "/b/y", "aa", true⟩]

/-- C9 counterexample: with collision-free digests (the identity), both
paths of `swapA`/`swapB` are flagged size-mismatch by Tier 0, but Tier 2
classifies no path divergent on either side: the size-mismatch set is not
a subset of the Tier 2 divergence set. -/
theorem c9_counterexample :
    InjOnContents id swapA swapB
    ∧ Twincheck.diffSize swapA swapB = ["x", "y"]
    ∧ Twincheck.onlyA id swapA swapB = []
    ∧ Twincheck.onlyA id swapB swapA = [] := by
  refine ⟨fun _ _ _ _ h => h, ?_, ?_, ?_⟩ <;> decide

/-- C9 (amended): under collision-free digests, a path flagged as
size-mismatch by Tier 0 is classified divergent-in-B by Tier 2 provided
no readable file of the other tree holds the same content as its A-side
record (symmetrically for the B side); the unrestricted subset inclusion
fails when both trees hold the same contents at swapped paths. -/
theorem c9_sizeMismatch_strict_divergence
    (hashFn : String → String) (A B : List FileInfo) (e : FileInfo)
    (hInj : InjOnContents hashFn A B) (hA : pathsNodup A)
    (heA : e ∈ A) (_hdiff : e.rel ∈ Twincheck.diffSize A B)
    (hnc : ∀ q, q ∈ B → q.readable = true → q.content ≠ e.content) :
    e ∈ Twincheck.onlyA hashFn A B := by
  apply (onlyA_mem hashFn A B e hA).mpr
  refine ⟨heA, ?_⟩
  by_cases hB : B.any (fun q => q.size == e.size) = true
  · right
    rintro ⟨hre, hmem⟩
    obtain ⟨q, hqB, hqr, hqc⟩ :=
      (mem_strictHashSetB_iff hashFn A B e hInj heA).mp hmem
    exact hnc q hqB hqr hqc
  · exact Or.inl (Bool.not_eq_true _ ▸ Bool.eq_false_iff.mpr hB)

/-- Witness for C9 at a concrete input: tree A holds `x` with content
`aaaaa`, tree B holds `x` with content `bb` and nothing else, so the
size-mismatched path is strict-divergent. -/
theorem c9_witness :
    (⟨"x", "/a/x", "aaaaa", true⟩ : FileInfo) ∈
      Twincheck.onlyA id [⟨"x", "/a/x", "aaaaa", true⟩]
        [⟨"x", "/b/x", "bb", true⟩] :=
  c9_sizeMismatch_strict_divergence id _ _ _
    (fun _ _ _ _ h => h) (by decide) (by decide) (by decide)
    (by decide)

namespace Dupekill

/-- `strings.TrimSpace`: strip leading and trailing whitespace
(computable replacement for `String.trim`, whose core implementation the
kernel cannot evaluate). -/
def trimStr (s : String) : String :=
  String.mk
    (((s.data.dropWhile Char.isWhitespace).reverse.dropWhile
        Char.isWhitespace).reverse)

/-- `strings.ToLower`: lowercase every character (computable replacement
for `String.toLower`). -/
def lowerStr (s : String) : String := String.mk (s.data.map Char.toLower)

/-- The normalization both confirmation prompts apply to an input line:
`strings.ToLower(strings.TrimSpace(line))`. -/
def normalizeLine (s : String) : String := lowerStr (trimStr s)

/-- Duplicate mode constants of dupekill.go. -/
def ModePathName : String := "path+name"

/-- Mode requiring the same relative path and content hash. -/
def ModePathHash : String := "path+hash"

/-- Mode requiring only the same content hash. -/
def ModeHashOnly : String := "hash"

/-- Content digest as recorded on a `file` after `hashFiles` ran over its
tree: the worker stores the hash only when `computeHash` succeeds, so an
unreadable file keeps the empty string.  In `path+name` mode `hashFiles`
is never called and the field is never consulted. -/
def fileHash (hashFn : String → String) (f : FileInfo) : String :=
  if f.readable then hashFn f.content else ""

/-- One duplicate group (`duplicate` struct): the reference-tree file and
the cleanup-tree files classified as its duplicates. -/
structure Duplicate where
  reference : FileInfo
  cleanup : List FileInfo
deriving DecidableEq, Repr

/-- Go map assignment `m[k] = v` on an association list: replaces the
binding of `k` when present, appends it otherwise. -/
def insertA (k : String) (v : FileInfo) :
    List (String × FileInfo) → List (String × FileInfo)
  | [] => [(k, v)]
  | (k', v') :: rest =>
    if k' == k then (k, v) :: rest else (k', v') :: insertA k v rest

/-- Reference index of `findDuplicates` (lines 166–187): `path+name`
keys every reference file by `rel|size`; the hash modes key only files
with a nonempty hash, by `rel|hash` resp. `hash` alone. -/
def referenceIndex (hashFn : String → String) (mode : String)
    (referenceFiles : List FileInfo) : List (String × FileInfo) :=
  if mode == ModePathName then
    referenceFiles.foldl
      (fun idx f => insertA (f.rel ++ "|" ++ toString f.size) f idx) []
  else if mode == ModePathHash then
    referenceFiles.foldl
      (fun idx f =>
        if fileHash hashFn f != "" then
          insertA (f.rel ++ "|" ++ fileHash hashFn f) f idx
        else idx) []
  else if mode == ModeHashOnly then
    referenceFiles.foldl
      (fun idx f =>
        if fileHash hashFn f != "" then insertA (fileHash hashFn f) f idx
        else idx) []
  else []

/-- Lookup key of a cleanup file (lines 192–206): empty when the mode
needs a hash and none was computed; an empty key is skipped. -/
def cleanupKey (hashFn : String → String) (mode : String)
    (f : FileInfo) : String :=
  if mode == ModePathName then f.rel ++ "|" ++ toString f.size
  else if mode == ModePathHash then
    (if fileHash hashFn f != "" then f.rel ++ "|" ++ fileHash hashFn f
     else "")
  else if mode == ModeHashOnly then
    (if fileHash hashFn f != "" then fileHash hashFn f else "")
  else ""

/-- `duplicates[key]` update (lines 208–219): extend the existing group
with one more cleanup file, or create a new group for this reference. -/
def addDuplicate (ds : List (String × Duplicate)) (k : String)
    (rf c : FileInfo) : List (String × Duplicate) :=
  match ds with
  | [] => [(k, ⟨rf, [c]⟩)]
  | (k', g) :: rest =>
    if k' == k then (k', ⟨g.reference, g.cleanup ++ [c]⟩) :: rest
    else (k', g) :: addDuplicate rest k rf c

/-- Insertion into a `le`-sorted list; `sortBy` models `sort.Slice`. -/
def insertSorted {α : Type} (le : α → α → Bool) (a : α) :
    List α → List α
  | [] => [a]
  | b :: rest =>
    if le a b then a :: b :: rest else b :: insertSorted le a rest

/-- Deterministic sort used to model `sort.Slice` (the source sorts by
absolute path for reproducible output). -/
def sortBy {α : Type} (le : α → α → Bool) (l : List α) : List α :=
  l.foldr (insertSorted le) []

/-- `findDuplicates` (lines 156–237): build the reference index for the
mode, fold over the cleanup files looking their key up, accumulate
groups, then sort cleanup entries by absolute path and groups by
reference absolute path. -/
def findDuplicates (hashFn : String → String) (mode : String)
    (referenceFiles cleanupFiles : List FileInfo) : List Duplicate :=
  let idx := referenceIndex hashFn mode referenceFiles
  let ds := cleanupFiles.foldl
    (fun ds c =>
      let k := cleanupKey hashFn mode c
      if k != "" then
        match idx.lookup k with
        | some rf => addDuplicate ds k rf c
        | none => ds
      else ds) []
  sortBy (fun g1 g2 => decide (g1.reference.abs < g2.reference.abs))
    ((ds.map (fun kg => kg.2)).map
      (fun g =>
        ⟨g.reference, sortBy (fun a b => decide (a.abs < b.abs)) g.cleanup⟩))

/-- A filesystem mutation attempted by the executor. -/
inductive FileOp where
  | rename (src dest : String)
  | remove (path : String)
deriving DecidableEq, Repr

/-- `filepath.Base`: the last component of a slash-separated path. -/
def baseName (p : String) : String := (p.splitOn "/").getLastD p

/-- The operation the executor performs for one cleanup file
(lines 283–289): move to `moveTo` when set, delete otherwise. -/
def opFor (moveTo : String) (f : FileInfo) : FileOp :=
  if moveTo != "" then FileOp.rename f.abs (moveTo ++ "/" ++ baseName f.abs)
  else FileOp.remove f.abs

/-- Inner executor loop over one group's cleanup files: attempted
operations in order, and the count of failed ones (`fails` is the
filesystem failure oracle; one failure never halts the loop). -/
def execGroup (moveTo : String) (fails : FileOp → Bool) (g : Duplicate) :
    List (FileInfo × FileOp) × Nat :=
  g.cleanup.foldl
    (fun acc f =>
      let op := opFor moveTo f
      (acc.1 ++ [(f, op)], acc.2 + if fails op then 1 else 0))
    ([], 0)

/-- Outer executor loop over all groups (lines 281–296). -/
def execAll (moveTo : String) (fails : FileOp → Bool)
    (dups : List Duplicate) : List (FileInfo × FileOp) × Nat :=
  dups.foldl
    (fun acc g =>
      let r := execGroup moveTo fails g
      (acc.1 ++ r.1, acc.2 + r.2))
    ([], 0)

/-- Total number of cleanup files across the groups (`totalDupes`). -/
def totalDupes (dups : List Duplicate) : Nat :=
  (dups.map (fun g => g.cleanup.length)).sum

/-- Observable outcome of one `processDuplicates` call: the attempted
filesystem operations, the failure count, the number of files reported
as successfully processed, whether the call aborted at its confirmation,
whether it returned an error, and the input lines left unread. -/
structure PDResult where
  ops : List (FileInfo × FileOp)
  failedCount : Nat
  processedReported : Nat
  aborted : Bool
  isError : Bool
  remaining : List String
deriving Repr

/-- `processDuplicates` (lines 247–304).  The dry-run/preview branch
(`dryRun || !delete`) prints the group listing and performs nothing.  The
destructive branch first reads one line and requires it to be exactly
`y` after trimming and lowercasing — a failed read (end of input) or any
other line aborts —, then attempts one operation per cleanup file,
collecting failures; the success count is only reported when no
operation failed. -/
def processDuplicates (dups : List Duplicate) (dryRun delete : Bool)
    (moveTo : String) (fails : FileOp → Bool) (input : List String) :
    PDResult :=
  if dryRun || !delete then
    ⟨[], 0, 0, false, false, input⟩
  else
    match input with
    | [] => ⟨[], 0, 0, true, false, []⟩
    | line :: rest =>
      if normalizeLine line != "y" then ⟨[], 0, 0, true, false, rest⟩
      else
        let r := execAll moveTo fails dups
        ⟨r.1, r.2, if r.2 == 0 then totalDupes dups else 0, false,
          r.2 != 0, rest⟩

/-- Confirmation and destructive phase of `run` (lines 413–431): after
the always-run dry-run preview, `run` reads one line and accepts `y` or
`yes` (trimmed, lowercased; a failed read aborts), then calls the
destructive `processDuplicates(duplicates, false, true, …)`, which
performs its own confirmation read accepting exactly `y`. -/
def runConfirm (dups : List Duplicate) (moveTo : String)
    (fails : FileOp → Bool) (input : List String) : PDResult :=
  match input with
  | [] => ⟨[], 0, 0, true, false, []⟩
  | line :: rest =>
    let response := normalizeLine line
    if response != "y" && response != "yes" then ⟨[], 0, 0, true, false, rest⟩
    else processDuplicates dups false true moveTo fails rest

/-- Specification-side rendering of the amended C3: the exact condition
under which the destructive phase executes — at least two input lines,
the first `y` or `yes` and the second exactly `y` (each trimmed and
lowercased). -/
def confirmOK (input : List String) : Bool :=
  match input with
  | l1 :: l2 :: _ =>
    (normalizeLine l1 == "y" || normalizeLine l1 == "yes") &&
      (normalizeLine l2 == "y")
  | _ => false

end Dupekill

section DupekillLemmas

open Dupekill

theorem execGroup_loop (moveTo : String) (fails : FileOp → Bool)
    (l : List FileInfo) (acc : List (FileInfo × FileOp) × Nat) :
    (l.foldl (fun acc f =>
        let op := opFor moveTo f
        (acc.1 ++ [(f, op)], acc.2 + if fails op then 1 else 0)) acc).1 =
      acc.1 ++ l.map (fun f => (f, opFor moveTo f)) := by
  induction l generalizing acc with
  | nil => simp
  | cons f rest ih => simp [ih]

theorem execGroup_ops (moveTo : String) (fails : FileOp → Bool)
    (g : Duplicate) :
    (execGroup moveTo fails g).1 =
      g.cleanup.map (fun f => (f, opFor moveTo f)) := by
  unfold execGroup
  rw [execGroup_loop]
  simp

theorem execAll_loop (moveTo : String) (fails : FileOp → Bool)
    (ds : List Duplicate) (acc : List (FileInfo × FileOp) × Nat) :
    (ds.foldl (fun acc g =>
        let r := execGroup moveTo fails g
        (acc.1 ++ r.1, acc.2 + r.2)) acc).1 =
      acc.1 ++ ds.flatMap (fun g => (execGroup moveTo fails g).1) := by
  induction ds generalizing acc with
  | nil => simp
  | cons g rest ih => simp [ih]

theorem execAll_ops (moveTo : String) (fails : FileOp → Bool)
    (dups : List Duplicate) :
    (execAll moveTo fails dups).1 =
      dups.flatMap (fun g => g.cleanup.map (fun f => (f, opFor moveTo f))) := by
  unfold execAll
  rw [execAll_loop]
  simp only [List.nil_append]
  congr 1
  funext g
  exact execGroup_ops moveTo fails g

end DupekillLemmas

/-- Sample reference-tree file used in concrete witnesses. -/
def sampleRef : FileInfo := ⟨"d/f.txt", "/ref/d/f.txt", "hello", true⟩

/-- Sample cleanup-tree file with the same relative path and content as
`sampleRef`. -/
def sampleClean : FileInfo := ⟨"d/f.txt", "/clean/d/f.txt", "hello", true⟩

/-- Sample duplicate set: one group, one cleanup file. -/
def sampleDups : List Dupekill.Duplicate := [⟨sampleRef, [sampleClean]⟩]

/-- C1: in the duplicate-elimination command, when the confirmation input
is anything other than an explicit affirmative — a non-affirmative first
line such as `n`, an empty line, or end of input — no delete or move
operation is attempted (the filesystem is untouched) and zero files are
reported as processed. -/
theorem c1_nonaffirmative_confirmation_aborts
    (dups : List Dupekill.Duplicate) (moveTo : String)
    (fails : Dupekill.FileOp → Bool) (input : List String)
    (h : match input with
         | [] => True
         | l :: _ => Dupekill.normalizeLine l ≠ "y" ∧
              Dupekill.normalizeLine l ≠ "yes") :
    (Dupekill.runConfirm dups moveTo fails input).ops = [] ∧
    (Dupekill.runConfirm dups moveTo fails input).processedReported = 0 := by
  cases input with
  | nil => exact ⟨rfl, rfl⟩
  | cons l rest =>
    obtain ⟨h1, h2⟩ := h
    have hcond : (Dupekill.normalizeLine l != "y" &&
        Dupekill.normalizeLine l != "yes") = true := by
      simp [bne, h1, h2]
    simp [Dupekill.runConfirm, hcond]

/-- Witness for C1 at a concrete input: confirmation line `n` leaves the
operation list empty and reports zero processed files. -/
theorem c1_witness :
    (Dupekill.runConfirm sampleDups "" (fun _ => false) ["n"]).ops = [] ∧
    (Dupekill.runConfirm sampleDups "" (fun _ => false) ["n"]).processedReported
      = 0 :=
  c1_nonaffirmative_confirmation_aborts sampleDups "" (fun _ => false) ["n"]
    ⟨by decide, by decide⟩

/-- C2: the executor passes exactly the cleanup records of the groups to
the delete/move loop — in order, one operation per cleanup record, in
both delete and move modes — and a group's reference record, as long as
it is not itself listed as some group's cleanup record, is never the
subject of any operation. -/
theorem c2_executor_touches_only_cleanup
    (dups : List Dupekill.Duplicate) (moveTo : String)
    (fails : Dupekill.FileOp → Bool) :
    ((Dupekill.execAll moveTo fails dups).1.map Prod.fst =
        dups.flatMap (fun g => g.cleanup))
    ∧ (∀ g, g ∈ dups → (∀ g', g' ∈ dups → g.reference ∉ g'.cleanup) →
        ∀ pr, pr ∈ (Dupekill.execAll moveTo fails dups).1 →
          pr.1 ≠ g.reference) := by
  constructor
  · rw [execAll_ops, List.map_flatMap]
    congr 1
    funext g
    rw [List.map_map]
    have hid : (Prod.fst ∘ fun f => (f, Dupekill.opFor moveTo f)) =
        (id : FileInfo → FileInfo) := rfl
    rw [hid, List.map_id]
  · intro g hg href pr hpr heq
    rw [execAll_ops, List.mem_flatMap] at hpr
    obtain ⟨g', hg', hpr'⟩ := hpr
    rw [List.mem_map] at hpr'
    obtain ⟨f, hf, hfe⟩ := hpr'
    have hgf : g.reference = f := by rw [← heq, ← hfe]
    exact href g' hg' (by rw [hgf]; exact hf)

/-- Witness for C2 at a concrete input: the executed operation list over
`sampleDups` covers exactly the cleanup record, whose file is not the
reference. -/
theorem c2_witness :
    ((Dupekill.execAll "" (fun _ => false) sampleDups).1.map Prod.fst =
        sampleDups.flatMap (fun g => g.cleanup))
    ∧ (sampleClean, Dupekill.opFor "" sampleClean).1 ≠ sampleRef :=
  ⟨(c2_executor_touches_only_cleanup sampleDups "" (fun _ => false)).1,
   (c2_executor_touches_only_cleanup sampleDups "" (fun _ => false)).2
     ⟨sampleRef, [sampleClean]⟩ (by decide) (by decide)
     (sampleClean, Dupekill.opFor "" sampleClean) (by decide)⟩

/-- C3 counterexample: the destructive path of `run` performs two
blocking reads, not one, and an exact affirmative token at the first read
does not suffice for execution to proceed.  With input `["y", "n"]` the
first line is exactly the affirmative token `y`, yet both lines are
consumed (nothing remains) and the run aborts with no operation
performed, refuting both the single-read part and the
affirmative-token-proceeds part of the claim. -/
theorem c3_counterexample :
    Dupekill.normalizeLine "y" = "y"
    ∧ Dupekill.totalDupes sampleDups = 1
    ∧ (Dupekill.runConfirm sampleDups "" (fun _ => false) ["y", "n"]).ops = []
    ∧ (Dupekill.runConfirm sampleDups "" (fun _ => false) ["y", "n"]).aborted
        = true
    ∧ (Dupekill.runConfirm sampleDups "" (fun _ => false) ["y", "n"]).remaining
        = [] := by
  refine ⟨?_, ?_, ?_, ?_, ?_⟩ <;> decide

/-- C3 (amended): confirmation of the destructive path consists of two
blocking reads of one line each: `run` accepts `y` or `yes`
(trimmed, lowercased) at the first, and `processDuplicates` accepts
exactly `y` at the second; the operations execute iff both reads accept
(`confirmOK`), and any other input — too few lines, a non-affirmative
first line, or a second line other than `y` — aborts with no operation
performed and zero files reported processed. -/
theorem c3_two_read_confirmation
    (dups : List Dupekill.Duplicate) (moveTo : String)
    (fails : Dupekill.FileOp → Bool) (input : List String) :
    (Dupekill.runConfirm dups moveTo fails input).ops =
      (if Dupekill.confirmOK input
       then (Dupekill.execAll moveTo fails dups).1 else [])
    ∧ (Dupekill.runConfirm dups moveTo fails input).processedReported =
      (if Dupekill.confirmOK input ∧ (Dupekill.execAll moveTo fails dups).2 = 0
       then Dupekill.totalDupes dups else 0) := by
  cases input with
  | nil => simp [Dupekill.runConfirm, Dupekill.confirmOK]
  | cons l1 rest =>
    cases ha : (Dupekill.normalizeLine l1 == "y" ||
        Dupekill.normalizeLine l1 == "yes") with
    | false =>
      have hcond : (Dupekill.normalizeLine l1 != "y" &&
          Dupekill.normalizeLine l1 != "yes") = true := by
        rw [bne, bne, ← Bool.not_or, ha]
        rfl
      cases rest with
      | nil => simp [Dupekill.runConfirm, Dupekill.confirmOK, hcond]
      | cons l2 rest2 =>
        simp [Dupekill.runConfirm, Dupekill.confirmOK, hcond, ha]
    | true =>
      have hcond : (Dupekill.normalizeLine l1 != "y" &&
          Dupekill.normalizeLine l1 != "yes") = false := by
        rw [bne, bne, ← Bool.not_or, ha]
        rfl
      cases rest with
      | nil =>
        simp [Dupekill.runConfirm, Dupekill.confirmOK, hcond,
          Dupekill.processDuplicates]
      | cons l2 rest2 =>
        cases hb : (Dupekill.normalizeLine l2 == "y") with
        | false =>
          have hb' : (Dupekill.normalizeLine l2 != "y") = true := by
            rw [bne, hb]
            rfl
          simp [Dupekill.runConfirm, Dupekill.confirmOK, hcond, ha, hb, hb',
            Dupekill.processDuplicates]
        | true =>
          have hb' : (Dupekill.normalizeLine l2 != "y") = false := by
            rw [bne, hb]
            rfl
          simp only [Dupekill.runConfirm, Dupekill.confirmOK, hcond, ha, hb,
            hb', Bool.false_eq_true, if_false, Bool.true_and,
            Dupekill.processDuplicates, Bool.or_self, Bool.not_true,
            Bool.false_or, if_true]
          constructor
          · simp
          · by_cases hz : (Dupekill.execAll moveTo fails dups).2 = 0
            · simp [hz]
            · have hz' : ((Dupekill.execAll moveTo fails dups).2 == 0) = false := by
                simp [hz]
              simp [hz, hz']

section DupekillInvariants

open Dupekill

theorem mem_insertA {l : List (String × FileInfo)} {k : String}
    {v : FileInfo} {kv : String × FileInfo}
    (h : kv ∈ insertA k v l) : kv = (k, v) ∨ kv ∈ l := by
  induction l with
  | nil =>
    rcases List.mem_cons.mp h with h1 | h1
    · exact Or.inl h1
    · cases h1
  | cons p rest ih =>
    unfold insertA at h
    by_cases hk : (p.1 == k) = true
    · rw [if_pos hk] at h
      rcases List.mem_cons.mp h with h1 | h1
      · exact Or.inl h1
      · exact Or.inr (List.mem_cons_of_mem p h1)
    · rw [if_neg hk] at h
      rcases List.mem_cons.mp h with h1 | h1
      · exact Or.inr (h1 ▸ List.mem_cons_self p rest)
      · rcases ih h1 with h2 | h2
        · exact Or.inl h2
        · exact Or.inr (List.mem_cons_of_mem p h2)

theorem mem_insertSorted {α : Type} (le : α → α → Bool) (a x : α)
    (l : List α) :
    x ∈ insertSorted le a l ↔ x = a ∨ x ∈ l := by
  induction l with
  | nil => simp [insertSorted]
  | cons b rest ih =>
    unfold insertSorted
    by_cases hle : le a b = true
    · rw [if_pos hle]
      simp
    · rw [if_neg hle]
      rw [List.mem_cons, ih, List.mem_cons]
      tauto

theorem mem_sortBy {α : Type} (le : α → α → Bool) (x : α) (l : List α) :
    x ∈ sortBy le l ↔ x ∈ l := by
  induction l with
  | nil => simp [sortBy]
  | cons b rest ih =>
    unfold sortBy at ih ⊢
    rw [List.foldr_cons, mem_insertSorted, ih, List.mem_cons]

theorem lookup_mem {l : List (String × FileInfo)} {k : String}
    {v : FileInfo} (h : l.lookup k = some v) : (k, v) ∈ l := by
  induction l with
  | nil => cases h
  | cons p rest ih =>
    rcases p with ⟨k', v'⟩
    by_cases hk : (k == k') = true
    · have hkp : k = k' := by simpa using hk
      subst hkp
      have hsome : some v' = some v := by
        simpa [List.lookup, hk] using h
      have hv := Option.some.inj hsome
      subst hv
      exact List.mem_cons_self _ _
    · have hk' : (k == k') = false := Bool.eq_false_iff.mpr hk
      have h2 : rest.lookup k = some v := by
        simpa [List.lookup, hk'] using h
      exact List.mem_cons_of_mem _ (ih h2)

theorem fileHash_ne_empty_readable (hashFn : String → String)
    (f : FileInfo) (h : (fileHash hashFn f != "") = true) :
    f.readable = true := by
  by_contra hr
  unfold fileHash at h
  rw [if_neg hr] at h
  simp at h

theorem foldl_index_readable (refs : List FileInfo)
    (key : FileInfo → String) (cond : FileInfo → Bool)
    (hc : ∀ f, cond f = true → f.readable = true) :
    ∀ init : List (String × FileInfo),
      (∀ kv ∈ init, kv.2.readable = true) →
      ∀ kv ∈ refs.foldl
          (fun idx f => if cond f then insertA (key f) f idx else idx) init,
        kv.2.readable = true := by
  induction refs with
  | nil =>
    intro init hinit kv hkv
    exact hinit kv hkv
  | cons f rest ih =>
    intro init hinit kv hkv
    rw [List.foldl_cons] at hkv
    refine ih _ ?_ kv hkv
    intro kv' hkv'
    by_cases hcf : cond f = true
    · rw [if_pos hcf] at hkv'
      rcases mem_insertA hkv' with heq | hmem
      · rw [heq]
        exact hc f hcf
      · exact hinit kv' hmem
    · rw [if_neg hcf] at hkv'
      exact hinit kv' hkv'

theorem referenceIndex_readable (hashFn : String → String) (mode : String)
    (refs : List FileInfo) (hm : mode ≠ ModePathName) :
    ∀ kv ∈ referenceIndex hashFn mode refs, kv.2.readable = true := by
  unfold referenceIndex
  have hm' : (mode == ModePathName) = false := by
    simp [hm]
  rw [if_neg (by simp [hm'])]
  by_cases h2 : (mode == ModePathHash) = true
  · rw [if_pos h2]
    exact foldl_index_readable refs _ _
      (fun f h => fileHash_ne_empty_readable hashFn f h) [] (by intro kv h; cases h)
  · rw [if_neg h2]
    by_cases h3 : (mode == ModeHashOnly) = true
    · rw [if_pos h3]
      exact foldl_index_readable refs _ _
        (fun f h => fileHash_ne_empty_readable hashFn f h) [] (by intro kv h; cases h)
    · rw [if_neg h3]
      intro kv h
      cases h

theorem cleanupKey_readable (hashFn : String → String) (mode : String)
    (f : FileInfo) (hm : mode ≠ ModePathName)
    (hk : (cleanupKey hashFn mode f != "") = true) : f.readable = true := by
  unfold cleanupKey at hk
  have hm' : (mode == ModePathName) = false := by simp [hm]
  rw [if_neg (by simp [hm'])] at hk
  by_cases h2 : (mode == ModePathHash) = true
  · rw [if_pos h2] at hk
    by_cases hf : (fileHash hashFn f != "") = true
    · exact fileHash_ne_empty_readable hashFn f hf
    · rw [if_neg hf] at hk
      simp at hk
  · rw [if_neg h2] at hk
    by_cases h3 : (mode == ModeHashOnly) = true
    · rw [if_pos h3] at hk
      by_cases hf : (fileHash hashFn f != "") = true
      · exact fileHash_ne_empty_readable hashFn f hf
      · rw [if_neg hf] at hk
        simp at hk
    · rw [if_neg h3] at hk
      simp at hk

theorem addDuplicate_inv (ds : List (String × Duplicate)) (k : String)
    (rf c : FileInfo)
    (hds : ∀ kg ∈ ds, kg.2.reference.readable = true ∧
      ∀ x ∈ kg.2.cleanup, x.readable = true)
    (hrf : rf.readable = true) (hc : c.readable = true) :
    ∀ kg ∈ addDuplicate ds k rf c, kg.2.reference.readable = true ∧
      ∀ x ∈ kg.2.cleanup, x.readable = true := by
  induction ds with
  | nil =>
    intro kg hkg
    rcases List.mem_cons.mp hkg with h1 | h1
    · rw [h1]
      refine ⟨hrf, ?_⟩
      intro x hx
      rcases List.mem_cons.mp hx with h2 | h2
      · rw [h2]; exact hc
      · cases h2
    · cases h1
  | cons p rest ih =>
    intro kg hkg
    unfold addDuplicate at hkg
    by_cases hpk : (p.1 == k) = true
    · rw [if_pos hpk] at hkg
      rcases List.mem_cons.mp hkg with h1 | h1
      · rw [h1]
        have hp := hds p (List.mem_cons_self p rest)
        refine ⟨hp.1, ?_⟩
        intro x hx
        rcases List.mem_append.mp hx with h2 | h2
        · exact hp.2 x h2
        · rcases List.mem_cons.mp h2 with h3 | h3
          · rw [h3]; exact hc
          · cases h3
      · exact hds kg (List.mem_cons_of_mem p h1)
    · rw [if_neg hpk] at hkg
      rcases List.mem_cons.mp hkg with h1 | h1
      · exact hds kg (h1 ▸ List.mem_cons_self p rest)
      · exact ih (fun kg' hkg' => hds kg' (List.mem_cons_of_mem p hkg')) kg h1

theorem foldl_dups_inv (hashFn : String → String) (mode : String)
    (idx : List (String × FileInfo)) (hm : mode ≠ ModePathName)
    (hidxr : ∀ kv ∈ idx, kv.2.readable = true) (cls : List FileInfo) :
    ∀ init : List (String × Duplicate),
      (∀ kg ∈ init, kg.2.reference.readable = true ∧
        ∀ x ∈ kg.2.cleanup, x.readable = true) →
      ∀ kg ∈ cls.foldl
          (fun ds c =>
            let k := cleanupKey hashFn mode c
            if k != "" then
              match idx.lookup k with
              | some rf => addDuplicate ds k rf c
              | none => ds
            else ds) init,
        kg.2.reference.readable = true ∧
          ∀ x ∈ kg.2.cleanup, x.readable = true := by
  induction cls with
  | nil =>
    intro init hinit kg hkg
    exact hinit kg hkg
  | cons c rest ih =>
    intro init hinit kg hkg
    rw [List.foldl_cons] at hkg
    refine ih _ ?_ kg hkg
    intro kg' hkg'
    simp only at hkg'
    by_cases hk : (cleanupKey hashFn mode c != "") = true
    · rw [if_pos hk] at hkg'
      cases hlook : idx.lookup (cleanupKey hashFn mode c) with
      | none =>
        rw [hlook] at hkg'
        exact hinit kg' hkg'
      | some rf =>
        rw [hlook] at hkg'
        have hrfr : rf.readable = true :=
          hidxr (cleanupKey hashFn mode c, rf) (lookup_mem hlook)
        have hcr : c.readable = true := cleanupKey_readable hashFn mode c hm hk
        exact addDuplicate_inv init _ rf c hinit hrfr hcr kg' hkg'
    · rw [if_neg hk] at hkg'
      exact hinit kg' hkg'

theorem findDuplicates_readable (hashFn : String → String) (mode : String)
    (refs cls : List FileInfo) (hm : mode ≠ ModePathName) :
    ∀ g ∈ findDuplicates hashFn mode refs cls,
      g.reference.readable = true ∧ ∀ c ∈ g.cleanup, c.readable = true := by
  intro g hg
  unfold findDuplicates at hg
  rw [mem_sortBy] at hg
  rw [List.mem_map] at hg
  obtain ⟨g0, hg0, hge⟩ := hg
  rw [List.mem_map] at hg0
  obtain ⟨kg, hkg, hkge⟩ := hg0
  have hkginv := foldl_dups_inv hashFn mode (referenceIndex hashFn mode refs)
    hm (referenceIndex_readable hashFn mode refs hm) cls []
    (by intro kg' h; cases h) kg hkg
  rw [hkge] at hkginv
  rw [← hge]
  refine ⟨hkginv.1, ?_⟩
  intro c hc
  rw [mem_sortBy] at hc
  exact hkginv.2 c hc

theorem runConfirm_ops_sub (dups : List Duplicate) (moveTo : String)
    (fails : FileOp → Bool) (input : List String) :
    ∀ pr ∈ (runConfirm dups moveTo fails input).ops,
      pr ∈ (execAll moveTo fails dups).1 := by
  intro pr hpr
  cases input with
  | nil => cases hpr
  | cons l1 rest =>
    unfold runConfirm at hpr
    by_cases h1 : (normalizeLine l1 != "y" && normalizeLine l1 != "yes") = true
    · simp only [h1, if_true] at hpr
      cases hpr
    · simp only [h1, if_false] at hpr
      unfold processDuplicates at hpr
      simp only [Bool.false_or, Bool.not_true, if_false] at hpr
      cases rest with
      | nil => cases hpr
      | cons l2 rest2 =>
        by_cases h2 : (normalizeLine l2 != "y") = true
        · simp only [h2, if_true] at hpr
          cases hpr
        · simp only [h2, if_false] at hpr
          exact hpr

end DupekillInvariants

/-- C6: an unreadable record is absent from the hashing result mapping
(never present with a partial digest); downstream, an unreadable
missing-by-path file is classified divergent by the smart tier; in the
hash-based duplicate modes every record of every `DuplicateGroup` —
reference and cleanup alike — is readable, so an unreadable record is
never placed in a group and is never the subject of a delete or move
operation of the executor. -/
theorem c6_unreadable_dropped_never_deleted :
    (∀ (hashFn : String → String) (batch : List FileInfo) (e : FileInfo),
       pathsNodup batch → e ∈ batch → e.readable = false →
       (Twincheck.hashFiles hashFn batch).lookup e.rel = none)
    ∧ (∀ (hashFn : String → String) (A B : List FileInfo) (e : FileInfo),
       pathsNodup A → e ∈ A → Twincheck.hasPath B e.rel = false →
       e.readable = false →
       e ∈ Twincheck.trulyMissingInB hashFn A B)
    ∧ (∀ (hashFn : String → String) (mode : String)
         (refs cls : List FileInfo) (g : Dupekill.Duplicate),
       mode ≠ Dupekill.ModePathName →
       g ∈ Dupekill.findDuplicates hashFn mode refs cls →
       g.reference.readable = true ∧ ∀ c ∈ g.cleanup, c.readable = true)
    ∧ (∀ (hashFn : String → String) (mode : String)
         (refs cls : List FileInfo) (moveTo : String)
         (fails : Dupekill.FileOp → Bool) (input : List String)
         (e : FileInfo) (pr : FileInfo × Dupekill.FileOp),
       mode ≠ Dupekill.ModePathName → e.readable = false →
       pr ∈ (Dupekill.runConfirm
               (Dupekill.findDuplicates hashFn mode refs cls)
               moveTo fails input).ops →
       pr.1 ≠ e) := by
  refine ⟨?_, ?_, ?_, ?_⟩
  · intro hashFn batch e hn he hre
    rw [hashFiles_lookup hashFn batch e hn he]
    rw [if_neg (by simp [hre])]
  · intro hashFn A B e hA heA heB hre
    apply (trulyMissingInB_mem hashFn A B e hA).mpr
    refine ⟨heA, heB, Or.inr ?_⟩
    rintro ⟨hre', _⟩
    rw [hre] at hre'
    cases hre'
  · intro hashFn mode refs cls g hm hg
    exact findDuplicates_readable hashFn mode refs cls hm g hg
  · intro hashFn mode refs cls moveTo fails input e pr hm hre hpr heq
    have hpr' := runConfirm_ops_sub _ moveTo fails input pr hpr
    rw [execAll_ops, List.mem_flatMap] at hpr'
    obtain ⟨g, hg, hpr''⟩ := hpr'
    rw [List.mem_map] at hpr''
    obtain ⟨f, hf, hfe⟩ := hpr''
    have hfr : f.readable = true :=
      (findDuplicates_readable hashFn mode refs cls hm g hg).2 f hf
    have hprf : pr.1 = f := by rw [← hfe]
    rw [heq] at hprf
    rw [← hprf] at hfr
    rw [hre] at hfr
    cases hfr

/-- Witness for C6 at concrete inputs: an unreadable file is dropped from
the hash mapping; an unreadable missing file is classified divergent; the
concrete duplicate set in `hash` mode contains only readable records; and
the executed operation over it never touches the unreadable file. -/
theorem c6_witness :
    (Twincheck.hashFiles id [⟨"u", "/a/u", "c", false⟩]).lookup "u" = none
    ∧ (⟨"u", "/a/u", "c", false⟩ : FileInfo) ∈
        Twincheck.trulyMissingInB id [⟨"u", "/a/u", "c", false⟩]
          [⟨"y", "/b/y", "c", true⟩]
    ∧ ((⟨sampleRef, [sampleClean]⟩ : Dupekill.Duplicate).reference.readable
          = true)
    ∧ (sampleClean, Dupekill.opFor "" sampleClean).1 ≠
        (⟨"u", "/a/u", "c", false⟩ : FileInfo) := by
  refine ⟨?_, ?_, ?_, ?_⟩
  · exact c6_unreadable_dropped_never_deleted.1 id [⟨"u", "/a/u", "c", false⟩]
      ⟨"u", "/a/u", "c", false⟩ (by decide) (by decide) (by decide)
  · exact c6_unreadable_dropped_never_deleted.2.1 id
      [⟨"u", "/a/u", "c", false⟩] [⟨"y", "/b/y", "c", true⟩]
      ⟨"u", "/a/u", "c", false⟩ (by decide) (by decide) (by decide) (by decide)
  · exact (c6_unreadable_dropped_never_deleted.2.2.1 id Dupekill.ModeHashOnly
      [sampleRef] [sampleClean] ⟨sampleRef, [sampleClean]⟩ (by decide)
      (by decide)).1
  · exact c6_unreadable_dropped_never_deleted.2.2.2 id Dupekill.ModeHashOnly
      [sampleRef] [sampleClean] "" (fun _ => false) ["y", "y"]
      ⟨"u", "/a/u", "c", false⟩ (sampleClean, Dupekill.opFor "" sampleClean)
      (by decide) (by decide) (by decide)

namespace Dupekill

mutual

/-- A directory as the pruning pass sees it: the names of the regular
files it directly contains (the pass never deletes files, only inspects
emptiness) and its named subdirectories. -/
inductive DirTree where
  | node : List String → DirForest → DirTree

/-- The subdirectories of a directory. -/
inductive DirForest where
  | nil : DirForest
  | cons : String → DirTree → DirForest → DirForest

end

/-- Whether a directory listing holds no subdirectory. -/
def isNilForest : DirForest → Bool
  | .nil => true
  | .cons _ _ _ => false

mutual

/-- `removeEmptyDirsRecursive` (dupekill.go lines 316–350): first
recursively process the subdirectories, then re-read the directory; if it
is now empty (no files, no remaining subdirectories) and its path is not
the empty string, remove it (in dry-run mode only report it, leaving the
count unchanged).  Returns the resulting directory (`none` when removed)
and the number of directories removed. -/
def removeEmptyDirsRecursive (dryRun : Bool) (dir : String) :
    DirTree → Option DirTree × Nat
  | .node files subs =>
    let r := pruneForest dryRun dir subs
    if files.isEmpty && isNilForest r.1 && !(dir == "") then
      if dryRun then (some (.node files r.1), r.2) else (none, r.2 + 1)
    else (some (.node files r.1), r.2)

/-- The subdirectory loop of `removeEmptyDirsRecursive`: each child is
processed at path `dir/name` (`filepath.Join`), removed children are
dropped from the listing, and the removal counts are summed. -/
def pruneForest (dryRun : Bool) (dir : String) :
    DirForest → DirForest × Nat
  | .nil => (.nil, 0)
  | .cons name d rest =>
    let rd := removeEmptyDirsRecursive dryRun (dir ++ "/" ++ name) d
    let rr := pruneForest dryRun dir rest
    match rd.1 with
    | none => (rr.1, rd.2 + rr.2)
    | some d' => (.cons name d' rr.1, rd.2 + rr.2)

end

/-- `removeEmptyDirs` (lines 307–313): run the pruning pass on each
cleanup root. -/
def removeEmptyDirs (dryRun : Bool) (roots : List (String × DirTree)) :
    List (Option DirTree × Nat) :=
  roots.map (fun r => removeEmptyDirsRecursive dryRun r.1 r.2)

mutual

/-- No file anywhere in the subtree: every file it held was deleted. -/
def noFilesDir : DirTree → Bool
  | .node files subs => files.isEmpty && noFilesForest subs

/-- No file anywhere in a directory listing. -/
def noFilesForest : DirForest → Bool
  | .nil => true
  | .cons _ d rest => noFilesDir d && noFilesForest rest

end

mutual

/-- Number of directories in the subtree, the directory itself included. -/
def numDirsDir : DirTree → Nat
  | .node _ subs => 1 + numDirsForest subs

/-- Number of directories in a directory listing. -/
def numDirsForest : DirForest → Nat
  | .nil => 0
  | .cons _ d rest => numDirsDir d + numDirsForest rest

end

end Dupekill

section PruneLemmas

open Dupekill

theorem append_slash_ne_empty (a b : String) : a ++ "/" ++ b ≠ "" := by
  intro h
  have hlen := congrArg String.length h
  simp [String.length_append] at hlen
  exact absurd hlen.1.2 (by decide)

mutual

theorem prune_noFiles_dir (dir : String) (t : DirTree)
    (hd : dir ≠ "") (hf : noFilesDir t = true) :
    removeEmptyDirsRecursive false dir t = (none, numDirsDir t) := by
  cases t with
  | node files subs =>
    unfold noFilesDir at hf
    simp only [Bool.and_eq_true] at hf
    obtain ⟨hfe, hsub⟩ := hf
    have hrec := prune_noFiles_forest dir subs hsub
    have hdir : (dir == "") = false := by
      simp [hd]
    unfold removeEmptyDirsRecursive
    simp only [hrec, isNilForest, hfe, hdir, Bool.not_false, Bool.and_true,
      Bool.true_and, if_true]
    simp [numDirsDir, Nat.add_comm]

theorem prune_noFiles_forest (dir : String) (f : DirForest)
    (hf : noFilesForest f = true) :
    pruneForest false dir f = (DirForest.nil, numDirsForest f) := by
  cases f with
  | nil => rfl
  | cons name d rest =>
    unfold noFilesForest at hf
    simp only [Bool.and_eq_true] at hf
    obtain ⟨hd, hrest⟩ := hf
    have h1 := prune_noFiles_dir (dir ++ "/" ++ name) d
      (append_slash_ne_empty dir name) hd
    have h2 := prune_noFiles_forest dir rest hrest
    unfold pruneForest
    simp only [h1, h2]
    simp [numDirsForest]

end

end PruneLemmas

/-- C7: in the post-destructive pruning pass, a directory subtree all of
whose files were deleted (no file remains anywhere under it) is removed
in its entirety — children are pruned before their parent re-reads its
listing, so the parent, finding itself empty, is removed in the same
pass; every one of its directories is counted removed. -/
theorem c7_prune_removes_emptied_dirs (dir : String) (t : Dupekill.DirTree)
    (hd : dir ≠ "") (hf : Dupekill.noFilesDir t = true) :
    (Dupekill.removeEmptyDirsRecursive false dir t).1 = none ∧
    (Dupekill.removeEmptyDirsRecursive false dir t).2 =
      Dupekill.numDirsDir t := by
  rw [prune_noFiles_dir dir t hd hf]
  exact ⟨rfl, rfl⟩

/-- Witness for C7 at a concrete input: a root with one empty child
directory; the child is removed first and the then-empty root follows in
the same pass, two removals in total. -/
theorem c7_witness :
    (Dupekill.removeEmptyDirsRecursive false "/clean"
      (Dupekill.DirTree.node []
        (Dupekill.DirForest.cons "child"
          (Dupekill.DirTree.node [] Dupekill.DirForest.nil)
          Dupekill.DirForest.nil))).1 = none ∧
    (Dupekill.removeEmptyDirsRecursive false "/clean"
      (Dupekill.DirTree.node []
        (Dupekill.DirForest.cons "child"
          (Dupekill.DirTree.node [] Dupekill.DirForest.nil)
          Dupekill.DirForest.nil))).2 = 2 :=
  c7_prune_removes_emptied_dirs "/clean"
    (Dupekill.DirTree.node []
      (Dupekill.DirForest.cons "child"
        (Dupekill.DirTree.node [] Dupekill.DirForest.nil)
        Dupekill.DirForest.nil))
    (by decide) (by decide)

/-- C10: the guard of the pruning pass excludes only the empty-string
path, so a cleanup root directory passed to the pruner is itself removed
when everything under it was deleted: for a tree with no remaining files,
the directory handed to `removeEmptyDirsRecursive` is removed exactly
when its path is nonempty. -/
theorem c10_root_pruned_guard_only_empty_string (root : String)
    (t : Dupekill.DirTree) (hf : Dupekill.noFilesDir t = true) :
    (Dupekill.removeEmptyDirsRecursive false root t).1 = none ↔
      root ≠ "" := by
  constructor
  · intro hnone hroot
    subst hroot
    cases t with
    | node files subs =>
      unfold Dupekill.removeEmptyDirsRecursive at hnone
      simp only [beq_self_eq_true, Bool.not_true, Bool.and_false,
        Bool.false_eq_true, if_false] at hnone
      cases hnone
  · intro hroot
    rw [prune_noFiles_dir root t hroot hf]

/-- Witness for C10 at concrete inputs: a nonempty root path over an
empty tree is removed; the empty-string path is not. -/
theorem c10_witness :
    (Dupekill.removeEmptyDirsRecursive false "/c"
        (Dupekill.DirTree.node [] Dupekill.DirForest.nil)).1 = none
    ∧ ¬((Dupekill.removeEmptyDirsRecursive false ""
        (Dupekill.DirTree.node [] Dupekill.DirForest.nil)).1 = none) :=
  ⟨(c10_root_pruned_guard_only_empty_string "/c"
      (Dupekill.DirTree.node [] Dupekill.DirForest.nil) (by decide)).mpr
      (by decide),
   fun h =>
    ((c10_root_pruned_guard_only_empty_string ""
      (Dupekill.DirTree.node [] Dupekill.DirForest.nil) (by decide)).mp h)
      rfl⟩

namespace Twincheck

/-- Arguments of the twincheck `run` (flag values as cobra delivers
them); `outWritable` models whether `os.Create(outPath)` succeeds. -/
structure RunArgs where
  a : String
  b : String
  mode : String
  outPath : String
  outWritable : Bool
  useHash : Bool
  hashMode : String

/-- Effective hashing tier resolution (`run` lines 478–485): start from
`off`, let the `--hash` shorthand select `smart`, and let a nonempty
`--hash-mode` override both. -/
def effectiveMode (args : RunArgs) : String :=
  let m1 := "off"
  let m2 := if args.useHash then "smart" else m1
  if args.hashMode != "" then args.hashMode else m2

/-- `run` (twincheck.go lines 470–531) reduced to its observable setup
behavior: the list of roots handed to a tree scan, in source order, and
the error outcome.  Checks run in source order: missing roots, output
file creation, then the tier switch whose default case rejects an
unknown hashing tier before any branch scans.  The report mode (`-m`) is
never validated: inside a tier branch an unknown report mode merely
selects no output section, and the command still scans and succeeds. -/
def run (args : RunArgs) : List String × Option String :=
  if args.a == "" || args.b == "" then
    ([], some "both -a and -b flags are required")
  else if args.outPath != "" && !args.outWritable then
    ([], some "create failed")
  else if effectiveMode args == "off" then ([args.a, args.b], none)
  else if effectiveMode args == "smart" then ([args.a, args.b], none)
  else if effectiveMode args == "strict" then ([args.a, args.b], none)
  else ([], some "invalid hash-mode")

end Twincheck

namespace Dupekill

/-- Arguments of the dupekill `run`; `outWritable` models whether
`os.Create(outPath)` succeeds. -/
structure RunArgs where
  reference : String
  cleanup : List String
  mode : String
  moveTo : String
  outPath : String
  outWritable : Bool
  keepEmptyDirs : Bool

/-- Setup portion of the dupekill `run` (lines 352–399): validations in
source order — duplicate mode, nonempty cleanup list, output file
creation — then the scans of the reference root and of each cleanup
root, returned in source order. -/
def runSetup (args : RunArgs) : List String × Option String :=
  if args.mode != ModePathName && args.mode != ModePathHash &&
      args.mode != ModeHashOnly then
    ([], some "invalid mode")
  else if args.cleanup.isEmpty then
    ([], some "at least one cleanup directory required")
  else if args.outPath != "" && !args.outWritable then
    ([], some "create failed")
  else (args.reference :: args.cleanup, none)

end Dupekill

/-- C8 counterexample: `bogus` is not a report mode, yet the divergence
command run with it succeeds after scanning both trees — the report mode
is never validated, so an invalid mode does not cause the command to
fail before scanning. -/
theorem c8_counterexample :
    ("bogus" ∉ (["all", "missing_a", "missing_b"] : List String))
    ∧ Twincheck.run ⟨"A", "B", "bogus", "", true, false, "off"⟩ =
        (["A", "B"], none) := by
  refine ⟨by decide, rfl⟩

/-- C8 (amended): every setup error the commands validate — a missing
required root of the divergence command, an unwritable output path of
either command, an invalid hashing tier, an invalid duplicate mode, or
an empty cleanup list — surfaces as a command failure before any tree is
scanned.  The divergence command's report mode, however, is not
validated (see the counterexample): an unknown report mode scans both
trees and succeeds. -/
theorem c8_validated_setup_errors_before_scan
    (tca : Twincheck.RunArgs) (dka : Dupekill.RunArgs) :
    ((tca.a = "" ∨ tca.b = "") →
       (Twincheck.run tca).1 = [] ∧ (Twincheck.run tca).2.isSome = true)
    ∧ ((tca.outPath ≠ "" ∧ tca.outWritable = false) →
       (Twincheck.run tca).1 = [] ∧ (Twincheck.run tca).2.isSome = true)
    ∧ (Twincheck.effectiveMode tca ∉ (["off", "smart", "strict"] : List String) →
       (Twincheck.run tca).1 = [] ∧ (Twincheck.run tca).2.isSome = true)
    ∧ (dka.mode ∉ ([Dupekill.ModePathName, Dupekill.ModePathHash,
        Dupekill.ModeHashOnly] : List String) →
       (Dupekill.runSetup dka).1 = [] ∧ (Dupekill.runSetup dka).2.isSome = true)
    ∧ (dka.cleanup = [] →
       (Dupekill.runSetup dka).1 = [] ∧ (Dupekill.runSetup dka).2.isSome = true)
    ∧ ((dka.outPath ≠ "" ∧ dka.outWritable = false) →
       (Dupekill.runSetup dka).1 = [] ∧
         (Dupekill.runSetup dka).2.isSome = true) := by
  refine ⟨?_, ?_, ?_, ?_, ?_, ?_⟩
  · intro hab
    unfold Twincheck.run
    have h1 : (tca.a == "" || tca.b == "") = true := by
      rcases hab with ha | hb
      · simp [ha]
      · simp [hb]
    rw [if_pos h1]
    exact ⟨rfl, rfl⟩
  · rintro ⟨ho, hw⟩
    unfold Twincheck.run
    by_cases h1 : (tca.a == "" || tca.b == "") = true
    · rw [if_pos h1]
      exact ⟨rfl, rfl⟩
    · rw [if_neg h1]
      have h2 : (tca.outPath != "" && !tca.outWritable) = true := by
        simp [bne, ho, hw]
      rw [if_pos h2]
      exact ⟨rfl, rfl⟩
  · intro hm
    unfold Twincheck.run
    have e1 : (Twincheck.effectiveMode tca == "off") = false := by
      simp only [beq_eq_false_iff_ne]
      intro he
      exact hm (by rw [he]; decide)
    have e2 : (Twincheck.effectiveMode tca == "smart") = false := by
      simp only [beq_eq_false_iff_ne]
      intro he
      exact hm (by rw [he]; decide)
    have e3 : (Twincheck.effectiveMode tca == "strict") = false := by
      simp only [beq_eq_false_iff_ne]
      intro he
      exact hm (by rw [he]; decide)
    by_cases h1 : (tca.a == "" || tca.b == "") = true
    · rw [if_pos h1]
      exact ⟨rfl, rfl⟩
    · rw [if_neg h1]
      by_cases h2 : (tca.outPath != "" && !tca.outWritable) = true
      · rw [if_pos h2]
        exact ⟨rfl, rfl⟩
      · rw [if_neg h2]
        rw [if_neg (by simp [e1]), if_neg (by simp [e2]), if_neg (by simp [e3])]
        exact ⟨rfl, rfl⟩
  · intro hm
    unfold Dupekill.runSetup
    have h1 : dka.mode ≠ Dupekill.ModePathName := fun h => hm (by rw [h]; decide)
    have h2 : dka.mode ≠ Dupekill.ModePathHash := fun h => hm (by rw [h]; decide)
    have h3 : dka.mode ≠ Dupekill.ModeHashOnly := fun h => hm (by rw [h]; decide)
    have hcond : (dka.mode != Dupekill.ModePathName &&
        dka.mode != Dupekill.ModePathHash &&
        dka.mode != Dupekill.ModeHashOnly) = true := by
      simp [bne, h1, h2, h3]
    rw [if_pos hcond]
    exact ⟨rfl, rfl⟩
  · intro hc
    unfold Dupekill.runSetup
    by_cases h1 : (dka.mode != Dupekill.ModePathName &&
        dka.mode != Dupekill.ModePathHash &&
        dka.mode != Dupekill.ModeHashOnly) = true
    · rw [if_pos h1]
      exact ⟨rfl, rfl⟩
    · rw [if_neg h1]
      rw [if_pos (by simp [hc])]
      exact ⟨rfl, rfl⟩
  · rintro ⟨ho, hw⟩
    unfold Dupekill.runSetup
    by_cases h1 : (dka.mode != Dupekill.ModePathName &&
        dka.mode != Dupekill.ModePathHash &&
        dka.mode != Dupekill.ModeHashOnly) = true
    · rw [if_pos h1]
      exact ⟨rfl, rfl⟩
    · rw [if_neg h1]
      by_cases h2 : dka.cleanup.isEmpty = true
      · rw [if_pos h2]
        exact ⟨rfl, rfl⟩
      · rw [if_neg h2]
        rw [if_pos (by simp [bne, ho, hw])]
        exact ⟨rfl, rfl⟩

/-- Witness for C8 at concrete inputs: a missing `-a` root fails the
divergence command with no scan, and an empty cleanup list fails the
duplicate command with no scan. -/
theorem c8_witness :
    ((Twincheck.run ⟨"", "B", "all", "", true, false, "off"⟩).1 = [] ∧
      (Twincheck.run ⟨"", "B", "all", "", true, false, "off"⟩).2.isSome = true)
    ∧ ((Dupekill.runSetup ⟨"/r", [], "hash", "", "", true, false⟩).1 = [] ∧
      (Dupekill.runSetup
          ⟨"/r", [], "hash", "", "", true, false⟩).2.isSome = true) :=
  ⟨(c8_validated_setup_errors_before_scan
      ⟨"", "B", "all", "", true, false, "off"⟩
      ⟨"/r", [], "hash", "", "", true, false⟩).1 (Or.inl rfl),
   (c8_validated_setup_errors_before_scan
      ⟨"", "B", "all", "", true, false, "off"⟩
      ⟨"/r", [], "hash", "", "", true, false⟩).2.2.2.2.1 rfl⟩
